import Mathlib

/-
Verification of `cachemap` (src/cachemap/cachemap.go): a generic
concurrency-safe map `CacheMap[K comparable, V any]` holding a Go map
`m : map[K]V` guarded by a `sync.RWMutex`, with gob serialization.

Embedding choices:
- The Go built-in `map[K]V` is modelled as an association list
  `List (K × V)`; `mapLookup`, `mapInsert`, `mapDelete` mirror Go's
  `m[k]`, `m[k] = v` and `delete(m, k)` and behave extensionally like the
  Go map (a real Go map additionally keeps keys unique, which the claims
  state as a `Nodup` hypothesis where it matters).
- Locking: the claims under verification are about the sequential
  functional behaviour of the operations.  In the Go source every locked
  method acquires the mutex, defers release, and delegates to its
  `WithoutLock` twin; here the locked method is defined as exactly that
  delegation, with `sync.RWMutex` acquisition/release elided (they do not
  touch `cm.m`).
- Go's comma-ok lookup `value, ok = cm.m[key]` yields the zero value of V
  when absent; the zero value is modelled by `default` of `Inhabited V`.
- `encoding/gob` is standard-library code, not part of this repository.
  Its behaviour relevant here is modelled by `GobStream`,
  `gobEncodeMap` and `gobDecodeMapInto` below, following the gob
  documentation and decoder: decoding a map value into an existing
  non-nil Go map does NOT clear it — entries are inserted one by one
  into the map as they are parsed, so a successful decode merges into
  the previous contents, and a decode that fails mid-stream leaves the
  entries parsed before the failure already inserted.  Encoding fails
  (with an error describing the cause) when a key or value cannot be
  serialized by gob.
- `fmt.Errorf("...: %w", err)` wrapping is modelled as string
  concatenation that keeps the underlying cause intact as a suffix.
-/

namespace Cachemap

variable {K V : Type}

/-- Lookup in the association-list model of a Go map: the value stored at
`key`, if present (first entry with that key wins; a Go map has at most
one). -/
def mapLookup [DecidableEq K] : List (K × V) → K → Option V
  | [], _ => none
  | e :: rest, key => if e.1 = key then some e.2 else mapLookup rest key

/-- Go map assignment `m[key] = value`: overwrite the entry for `key` if
present, otherwise add one. -/
def mapInsert [DecidableEq K] : List (K × V) → K → V → List (K × V)
  | [], key, value => [(key, value)]
  | e :: rest, key, value =>
      if e.1 = key then (key, value) :: rest else e :: mapInsert rest key value

/-- Go `delete(m, key)`: remove every entry stored at `key` (at most one in
a real Go map); removing an absent key changes nothing. -/
def mapDelete [DecidableEq K] (m : List (K × V)) (key : K) : List (K × V) :=
  m.filter (fun e => decide (e.1 ≠ key))

/-- The struct `CacheMap[K, V]` from src/cachemap/cachemap.go, keeping the
field name `m`.  The `lock sync.RWMutex` field is elided (see the header
comment). -/
structure CacheMap (K V : Type) where
  m : List (K × V)

/-- The keys of the stored map are pairwise distinct — the invariant a Go
map enjoys by construction. -/
def keysNodup (m : List (K × V)) : Prop := (m.map Prod.fst).Nodup

instance [DecidableEq K] (m : List (K × V)) : Decidable (keysNodup m) := by
  unfold keysNodup; infer_instance

/-- `NewCacheMap` constructs an empty container. -/
def NewCacheMap : CacheMap K V := ⟨[]⟩

/-- `DeleteWithoutLock` removes `key` from the map. -/
def CacheMap.DeleteWithoutLock [DecidableEq K] (cm : CacheMap K V) (key : K) :
    CacheMap K V :=
  ⟨mapDelete cm.m key⟩

/-- `Delete` locks, defers unlock, and calls `DeleteWithoutLock`. -/
def CacheMap.Delete [DecidableEq K] (cm : CacheMap K V) (key : K) : CacheMap K V :=
  cm.DeleteWithoutLock key

/-- `GetWithoutLock` is Go's comma-ok read `value, ok = cm.m[key]`: the
stored value with `true`, or the zero value of V with `false`.  The Go
method performs no write to `cm.m`, which the embedding reflects by not
returning a container. -/
def CacheMap.GetWithoutLock [DecidableEq K] [Inhabited V] (cm : CacheMap K V)
    (key : K) : V × Bool :=
  match mapLookup cm.m key with
  | some v => (v, true)
  | none => (default, false)

/-- `Get` read-locks, defers unlock, and calls `GetWithoutLock`. -/
def CacheMap.Get [DecidableEq K] [Inhabited V] (cm : CacheMap K V) (key : K) :
    V × Bool :=
  cm.GetWithoutLock key

/-- `SetWithoutLock` is Go's `cm.m[key] = value`. -/
def CacheMap.SetWithoutLock [DecidableEq K] (cm : CacheMap K V) (key : K)
    (value : V) : CacheMap K V :=
  ⟨mapInsert cm.m key value⟩

/-- `Set` locks, defers unlock, and calls `SetWithoutLock`. -/
def CacheMap.Set [DecidableEq K] (cm : CacheMap K V) (key : K) (value : V) :
    CacheMap K V :=
  cm.SetWithoutLock key value

/-- `LenWithoutLock` is Go's `len(cm.m)`: the number of stored entries. -/
def CacheMap.LenWithoutLock (cm : CacheMap K V) : Nat :=
  cm.m.length

/-- `Len` read-locks, defers unlock, and calls `LenWithoutLock`. -/
def CacheMap.Len (cm : CacheMap K V) : Nat :=
  cm.LenWithoutLock

/-- `ClearWithoutLock` is Go's `cm.m = make(map[K]V)`: replace the storage
with a fresh empty map. -/
def CacheMap.ClearWithoutLock (cm : CacheMap K V) : CacheMap K V :=
  ⟨[]⟩

/-- `Clear` locks, defers unlock, and calls `ClearWithoutLock`. -/
def CacheMap.Clear (cm : CacheMap K V) : CacheMap K V :=
  cm.ClearWithoutLock

/-- `ExportWithoutLock` is Go's `maps.Collect(maps.All(cm.m))`: a fresh map
holding exactly the current entries (in the pure embedding the detached
copy is the value itself). -/
def CacheMap.ExportWithoutLock (cm : CacheMap K V) : List (K × V) :=
  cm.m

/-- `Export` read-locks, defers unlock, and calls `ExportWithoutLock`. -/
def CacheMap.Export (cm : CacheMap K V) : List (K × V) :=
  cm.ExportWithoutLock

/-- `ImportWithoutLock` is Go's `cm.m = m`: the storage reference is
replaced by the caller's map. -/
def CacheMap.ImportWithoutLock (cm : CacheMap K V) (m : List (K × V)) :
    CacheMap K V :=
  ⟨m⟩

/-- `Import` locks, defers unlock, and calls `ImportWithoutLock`. -/
def CacheMap.Import (cm : CacheMap K V) (m : List (K × V)) : CacheMap K V :=
  cm.ImportWithoutLock m

/-- Model of a gob-encoded byte sequence as consumed by
`gob.Decoder.Decode` with a `map[K]V` target.  `msg entries` is a
well-formed stream encoding the map whose entries are `entries` (in
stream order).  `corrupt cause decoded` is a malformed, truncated or
type-mismatched stream on which the decoder parses the entries `decoded`
and then fails with the underlying error text `cause`; failures in the
header, a type mismatch, or truncation detected before any entry parses
are `corrupt cause []`. -/
inductive GobStream (K V : Type) where
  | msg : List (K × V) → GobStream K V
  | corrupt : String → List (K × V) → GobStream K V

/-- Insert a list of decoded entries one by one, in stream order, into an
existing map — exactly how the gob decoder fills a map target
(`value.SetMapIndex(key, elem)` per parsed pair, never clearing the map
first). -/
def insertEntries [DecidableEq K] : List (K × V) → List (K × V) → List (K × V)
  | m, [] => m
  | m, e :: rest => insertEntries (mapInsert m e.1 e.2) rest

/-- Model of `gob.Decoder.Decode(&m)` for a map target `m0`: on a
well-formed stream every encoded entry is inserted into `m0` and no error
is returned; on a corrupt stream the entries parsed before the failure
point have been inserted and the underlying error is returned. -/
def gobDecodeMapInto [DecidableEq K] (m0 : List (K × V)) :
    GobStream K V → Option String × List (K × V)
  | .msg es => (none, insertEntries m0 es)
  | .corrupt cause ds => (some cause, insertEntries m0 ds)

/-- Model of `gob.Encoder.Encode(m)` for a map `m`, parametrised by which
keys and values gob can serialize (`okK`, `okV` — e.g. channels and
functions cannot be).  When every entry is serializable the encoder emits
a well-formed stream holding exactly the map's entries; otherwise it
fails with an error describing the unsupported type. -/
def gobEncodeMap (okK : K → Bool) (okV : V → Bool) (m : List (K × V)) :
    Except String (GobStream K V) :=
  if m.all (fun e => okK e.1 && okV e.2) then .ok (.msg m)
  else .error "unsupported type or value"

/-- `GobDecode` from src/cachemap/cachemap.go: lock, defer unlock, gob-decode
`data` into `cm.m` in place, and wrap any decoder error as
`fmt.Errorf("gob decode error: %w", err)`.  The result pairs the returned
`error` (none = nil) with the container after the call. -/
def CacheMap.GobDecode [DecidableEq K] (cm : CacheMap K V) (data : GobStream K V) :
    Option String × CacheMap K V :=
  match gobDecodeMapInto cm.m data with
  | (some err, m1) => (some ("gob decode error: " ++ err), ⟨m1⟩)
  | (none, m1) => (none, ⟨m1⟩)

/-- `GobEncode` from src/cachemap/cachemap.go: read-lock, defer unlock,
gob-encode `cm.m` into a buffer; on failure return nil bytes and
`fmt.Errorf("gob encode error: %w", err)`.  The result pairs Go's
`([]byte, error)` pair with the container after the call (the method
never writes `cm.m`). -/
def CacheMap.GobEncode (okK : K → Bool) (okV : V → Bool) (cm : CacheMap K V) :
    (Option (GobStream K V) × Option String) × CacheMap K V :=
  match gobEncodeMap okK okV cm.m with
  | .ok b => ((some b, none), cm)
  | .error e => ((none, some ("gob encode error: " ++ e)), cm)

/-! ### Lemmas about the map model -/

theorem mapLookup_mapInsert [DecidableEq K] (m : List (K × V)) (k j : K) (v : V) :
    mapLookup (mapInsert m k v) j = if j = k then some v else mapLookup m j := by
  induction m with
  | nil =>
    by_cases h : j = k
    · simp [mapInsert, mapLookup, h]
    · have hkj : ¬ k = j := fun hc => h hc.symm
      simp [mapInsert, mapLookup, h, hkj]
  | cons e rest ih =>
    by_cases hek : e.1 = k
    · by_cases hjk : j = k
      · simp [mapInsert, mapLookup, hek, hjk]
      · have hkj : ¬ k = j := fun hc => hjk hc.symm
        have hej : ¬ e.1 = j := by rw [hek]; exact hkj
        simp [mapInsert, mapLookup, hek, hjk, hkj, hej]
    · by_cases hej : e.1 = j
      · have hjk : ¬ j = k := fun hc => hek (hej.trans hc)
        simp [mapInsert, mapLookup, hek, hej, hjk]
      · simp [mapInsert, mapLookup, hek, hej, ih]

theorem mapLookup_mapDelete [DecidableEq K] (m : List (K × V)) (k j : K) :
    mapLookup (mapDelete m k) j = if j = k then none else mapLookup m j := by
  induction m with
  | nil => simp [mapDelete, mapLookup]
  | cons e rest ih =>
    by_cases hek : e.1 = k
    · by_cases hjk : j = k
      · simpa [mapDelete, mapLookup, hek, hjk] using ih
      · have hkj : ¬ k = j := fun hc => hjk hc.symm
        have hej : ¬ e.1 = j := by rw [hek]; exact hkj
        simpa [mapDelete, mapLookup, hek, hjk, hkj, hej] using ih
    · by_cases hej : e.1 = j
      · have hjk : ¬ j = k := fun hc => hek (hej.trans hc)
        simp [mapDelete, mapLookup, hek, hej, hjk]
      · simpa [mapDelete, mapLookup, hek, hej] using ih

theorem mapLookup_eq_none_iff [DecidableEq K] (m : List (K × V)) (k : K) :
    mapLookup m k = none ↔ ∀ e ∈ m, e.1 ≠ k := by
  induction m with
  | nil => simp [mapLookup]
  | cons e rest ih =>
    by_cases hek : e.1 = k
    · simp [mapLookup, hek]
    · simp [mapLookup, hek, ih]

theorem mapDelete_of_absent [DecidableEq K] (m : List (K × V)) (k : K)
    (h : mapLookup m k = none) : mapDelete m k = m := by
  refine List.filter_eq_self.mpr ?_
  intro e he
  exact decide_eq_true ((mapLookup_eq_none_iff m k).mp h e he)

theorem mapDelete_mapDelete [DecidableEq K] (m : List (K × V)) (k : K) :
    mapDelete (mapDelete m k) k = mapDelete m k := by
  refine List.filter_eq_self.mpr ?_
  intro e he
  simp only [mapDelete, List.mem_filter] at he
  exact he.2

theorem mapLookup_insertEntries_absent [DecidableEq K]
    (es : List (K × V)) (k : K) :
    mapLookup es k = none →
      ∀ m : List (K × V), mapLookup (insertEntries m es) k = mapLookup m k := by
  induction es with
  | nil => intro _ m; rfl
  | cons e rest ih =>
    intro h m
    have hek : ¬ e.1 = k := by
      intro hc
      simp [mapLookup, hc] at h
    have hrest : mapLookup rest k = none := by
      simpa [mapLookup, hek] using h
    have hke : ¬ k = e.1 := fun hc => hek hc.symm
    rw [insertEntries, ih hrest (mapInsert m e.1 e.2), mapLookup_mapInsert]
    simp [hke]

theorem mapLookup_insertEntries_present [DecidableEq K]
    (es : List (K × V)) (k : K) (v : V) :
    keysNodup es → mapLookup es k = some v →
      ∀ m : List (K × V), mapLookup (insertEntries m es) k = some v := by
  induction es with
  | nil => intro _ h; simp [mapLookup] at h
  | cons e rest ih =>
    intro hn h m
    have hn1 : e.1 ∉ rest.map Prod.fst ∧ (rest.map Prod.fst).Nodup := by
      have := hn
      simp only [keysNodup, List.map_cons, List.nodup_cons] at this
      exact this
    rw [insertEntries]
    by_cases hek : e.1 = k
    · have hv : v = e.2 := by
        rw [mapLookup, if_pos hek] at h
        exact (Option.some_inj.mp h).symm
      have hkrest : mapLookup rest k = none := by
        rw [mapLookup_eq_none_iff]
        intro x hx hxk
        have hmem : e.1 ∈ rest.map Prod.fst := by
          rw [hek, ← hxk]
          exact List.mem_map_of_mem Prod.fst hx
        exact hn1.1 hmem
      rw [mapLookup_insertEntries_absent _ _ hkrest (mapInsert m e.1 e.2),
        mapLookup_mapInsert, hek, if_pos rfl, hv]
    · have hrest : mapLookup rest k = some v := by
        simpa [mapLookup, hek] using h
      exact ih hn1.2 hrest (mapInsert m e.1 e.2)

/-! ### The claims -/

/-- Claim C5: for every container state, key and values, `Set k v1` followed
by `Set k v2` leaves `Get k` returning `(v2, true)`: the second write fully
replaces the first, no merge. -/
theorem set_overwrites [DecidableEq K] [Inhabited V]
    (cm : CacheMap K V) (k : K) (v1 v2 : V) :
    ((cm.Set k v1).Set k v2).Get k = (v2, true) := by
  simp [CacheMap.Set, CacheMap.SetWithoutLock, CacheMap.Get,
    CacheMap.GetWithoutLock, mapLookup_mapInsert]

/-- Claim C6: `Get` on a key absent from the container returns the zero
value of V together with `false` (never an error — the Go signature has no
error result), and in particular does so for every key of a newly
constructed container.  `Get` performs no write to `cm.m`, which the
embedding reflects by its result type: it returns no container. -/
theorem get_absent_zero_false [DecidableEq K] [Inhabited V]
    (cm : CacheMap K V) (k : K) (h : mapLookup cm.m k = none) :
    cm.Get k = (default, false) ∧
      (NewCacheMap : CacheMap K V).Get k = (default, false) := by
  constructor
  · simp [CacheMap.Get, CacheMap.GetWithoutLock, h]
  · simp [CacheMap.Get, CacheMap.GetWithoutLock, NewCacheMap, mapLookup]

/-- Witness for C6 at a concrete input: a container holding ("a", 1) misses
"b", and the fresh container misses "b". -/
theorem get_absent_zero_false_witness :
    (CacheMap.mk [(("a" : String), (1 : Int))]).Get "b" = (default, false) ∧
      (NewCacheMap : CacheMap String Int).Get "b" = (default, false) :=
  get_absent_zero_false (CacheMap.mk [(("a" : String), (1 : Int))]) "b" (by decide)

/-- Claim C7: after `Clear` the container is logically empty: `Len` is 0,
`Get` misses every key (in particular every previously present one), and
the state is equal to a newly constructed container. -/
theorem clear_empties [DecidableEq K] [Inhabited V] (cm : CacheMap K V) (k : K) :
    cm.Clear.Len = 0 ∧ cm.Clear.Get k = (default, false) ∧
      cm.Clear = (NewCacheMap : CacheMap K V) := by
  refine ⟨rfl, ?_, rfl⟩
  simp [CacheMap.Clear, CacheMap.ClearWithoutLock, CacheMap.Get,
    CacheMap.GetWithoutLock, mapLookup]

/-- Claim C8: `Delete` is idempotent and total: deleting twice in a row
yields the same state as deleting once, and deleting an absent key leaves
the state unchanged (and signals no error — the Go method has no error
result at all). -/
theorem delete_idempotent_total [DecidableEq K] (cm : CacheMap K V) (k : K) :
    ((cm.Delete k).Delete k = cm.Delete k) ∧
      (mapLookup cm.m k = none → cm.Delete k = cm) := by
  refine ⟨?_, fun h => ?_⟩
  · simp only [CacheMap.Delete, CacheMap.DeleteWithoutLock]
    exact congrArg CacheMap.mk (mapDelete_mapDelete cm.m k)
  · simp only [CacheMap.Delete, CacheMap.DeleteWithoutLock]
    rw [mapDelete_of_absent cm.m k h]

/-- Witness for C8 at a concrete input: deleting the absent key "b" from a
container holding ("a", 1). -/
theorem delete_idempotent_total_witness :
    (((CacheMap.mk [(("a" : String), (1 : Int))]).Delete "b").Delete "b" =
        (CacheMap.mk [(("a" : String), (1 : Int))]).Delete "b") ∧
      ((CacheMap.mk [(("a" : String), (1 : Int))]).Delete "b" =
        CacheMap.mk [(("a" : String), (1 : Int))]) := by
  have h := delete_idempotent_total (CacheMap.mk [(("a" : String), (1 : Int))]) "b"
  exact ⟨h.1, h.2 (by decide)⟩

/-- Claim C10: per-key frame property: for a key j distinct from k,
`Set k v` leaves `Get j` unchanged and `Delete k` leaves `Get j`
unchanged. -/
theorem set_delete_frame [DecidableEq K] [Inhabited V]
    (cm : CacheMap K V) (k j : K) (v : V) (h : j ≠ k) :
    ((cm.Set k v).Get j = cm.Get j) ∧ ((cm.Delete k).Get j = cm.Get j) := by
  constructor
  · simp [CacheMap.Set, CacheMap.SetWithoutLock, CacheMap.Get,
      CacheMap.GetWithoutLock, mapLookup_mapInsert, h]
  · simp [CacheMap.Delete, CacheMap.DeleteWithoutLock, CacheMap.Get,
      CacheMap.GetWithoutLock, mapLookup_mapDelete, h]

/-- Witness for C10 at a concrete input: writing and deleting key "b" does
not change what "a" Gets. -/
theorem set_delete_frame_witness :
    (((CacheMap.mk [(("a" : String), (1 : Int))]).Set "b" 2).Get "a" =
        (CacheMap.mk [(("a" : String), (1 : Int))]).Get "a") ∧
      (((CacheMap.mk [(("a" : String), (1 : Int))]).Delete "b").Get "a" =
        (CacheMap.mk [(("a" : String), (1 : Int))]).Get "a") :=
  set_delete_frame (CacheMap.mk [(("a" : String), (1 : Int))]) "b" "a" 2 (by decide)

/-- Claim C4: `Import m` replaces the entire contents with `m` and never
merges: `Export` afterwards is exactly `m` (whatever the prior state), and
any key absent from `m` — in particular every prior key not in `m` — now
misses. -/
theorem import_replaces [DecidableEq K] [Inhabited V]
    (cm : CacheMap K V) (m : List (K × V)) (k : K) (h : mapLookup m k = none) :
    ((cm.Import m).Export = m) ∧ ((cm.Import m).Get k = (default, false)) := by
  refine ⟨rfl, ?_⟩
  simp [CacheMap.Import, CacheMap.ImportWithoutLock, CacheMap.Get,
    CacheMap.GetWithoutLock, h]

/-- Witness for C4 at a concrete input: the spec's own example
`Set("a",1); Import({"b":2})`. -/
theorem import_replaces_witness :
    (((NewCacheMap : CacheMap String Int).Set "a" 1).Import [("b", 2)]).Export
        = [(("b" : String), (2 : Int))] ∧
      (((NewCacheMap : CacheMap String Int).Set "a" 1).Import [("b", 2)]).Get "a"
        = (default, false) :=
  import_replaces ((NewCacheMap : CacheMap String Int).Set "a" 1) [("b", 2)] "a"
    (by decide)

/-- Claim C9: when gob encoding of the current contents fails with
underlying cause c, `GobEncode` returns nil bytes and an error wrapping c
(the cause survives verbatim inside the returned message), and the
container after the call is exactly the container before it, so every
prior entry still holds its value. -/
theorem gobEncode_failure_wraps_and_preserves [DecidableEq K]
    (okK : K → Bool) (okV : V → Bool) (cm : CacheMap K V) (c : String)
    (h : gobEncodeMap okK okV cm.m = .error c) :
    ((cm.GobEncode okK okV).1 = (none, some ("gob encode error: " ++ c))) ∧
      ((cm.GobEncode okK okV).2 = cm) := by
  constructor
  · simp [CacheMap.GobEncode, h]
  · simp [CacheMap.GobEncode, h]

/-- Witness for C9 at a concrete input: an encoder that cannot serialize
negative values fails on a container holding ("a", -1), wrapping the
cause, and the container is unchanged. -/
theorem gobEncode_failure_wraps_and_preserves_witness :
    ((CacheMap.mk [(("a" : String), (-1 : Int))]).GobEncode (fun _ => true)
          (fun v => decide (0 ≤ v))).1
        = (none, some ("gob encode error: " ++ "unsupported type or value")) ∧
      ((CacheMap.mk [(("a" : String), (-1 : Int))]).GobEncode (fun _ => true)
          (fun v => decide (0 ≤ v))).2
        = CacheMap.mk [(("a" : String), (-1 : Int))] :=
  gobEncode_failure_wraps_and_preserves (fun _ => true) (fun v => decide (0 ≤ v))
    (CacheMap.mk [(("a" : String), (-1 : Int))]) "unsupported type or value" (by rfl)

/-- Claim C3: round-trip.  For any mapping m (distinct keys) whose entries
gob can serialize, `GobEncode` on a container holding m succeeds and emits
the well-formed stream of the entries of m, and `GobDecode` of that
stream into a fresh container succeeds and yields a container whose
`Export` is extensionally equal to m: the same key set with the same value
per key. -/
theorem encode_decode_roundtrip [DecidableEq K]
    (okK : K → Bool) (okV : V → Bool) (m : List (K × V)) (hn : keysNodup m)
    (hs : m.all (fun e => okK e.1 && okV e.2) = true) (k : K) :
    ((CacheMap.mk m).GobEncode okK okV).1 = (some (GobStream.msg m), none) ∧
      ((NewCacheMap : CacheMap K V).GobDecode (GobStream.msg m)).1 = none ∧
      mapLookup (((NewCacheMap : CacheMap K V).GobDecode (GobStream.msg m)).2.Export) k
        = mapLookup m k := by
  refine ⟨?_, rfl, ?_⟩
  · simp [CacheMap.GobEncode, gobEncodeMap, hs]
  · show mapLookup (insertEntries [] m) k = mapLookup m k
    cases hm : mapLookup m k with
    | none => rw [mapLookup_insertEntries_absent m k hm []]; rfl
    | some v => exact mapLookup_insertEntries_present m k v hn hm []

/-- Witness for C3 at a concrete input: the two-entry mapping
{"x": 10, "y": 20} of the spec's example scenario round-trips. -/
theorem encode_decode_roundtrip_witness :
    ((CacheMap.mk [(("x" : String), (10 : Int)), ("y", 20)]).GobEncode
          (fun _ => true) (fun _ => true)).1
        = (some (GobStream.msg [("x", 10), ("y", 20)]), none) ∧
      ((NewCacheMap : CacheMap String Int).GobDecode
          (GobStream.msg [("x", 10), ("y", 20)])).1 = none ∧
      mapLookup (((NewCacheMap : CacheMap String Int).GobDecode
          (GobStream.msg [("x", 10), ("y", 20)])).2.Export) "x"
        = mapLookup [(("x" : String), (10 : Int)), ("y", 20)] "x" :=
  encode_decode_roundtrip (fun _ => true) (fun _ => true)
    [("x", 10), ("y", 20)] (by decide) (by decide) "x"

/-- Claim C2 as stated is false on the code: `GobDecode` decodes into the
existing map `cm.m` without clearing it, and the gob decoder merges into a
non-nil map.  Concretely: a container holding ("a", 1) decodes a
well-formed stream encoding the mapping {"b": 2} with no error, "a" is
absent from that decoded mapping, yet afterwards `Get "a"` still returns
(1, true) — the prior entry survives, refuting replacement. -/
theorem gobDecode_merge_counterexample :
    ((CacheMap.mk [(("a" : String), (1 : Int))]).GobDecode
        (GobStream.msg [("b", 2)])).1 = none ∧
      mapLookup [(("b" : String), (2 : Int))] "a" = none ∧
      ((CacheMap.mk [(("a" : String), (1 : Int))]).GobDecode
          (GobStream.msg [("b", 2)])).2.Get "a" = (1, true) := by
  refine ⟨rfl, by decide, ?_⟩
  decide

/-- Claim C2 amended: when `GobDecode` succeeds it merges the decoded
mapping into the existing contents instead of replacing them: no error is
returned, every key of the decoded mapping is now bound to its decoded
value, and every prior entry whose key is absent from the decoded mapping
survives unchanged. -/
theorem gobDecode_success_merges [DecidableEq K] [Inhabited V]
    (cm : CacheMap K V) (es : List (K × V)) (hn : keysNodup es) :
    ((cm.GobDecode (GobStream.msg es)).1 = none) ∧
      (∀ k v, mapLookup es k = some v →
        (cm.GobDecode (GobStream.msg es)).2.Get k = (v, true)) ∧
      (∀ k, mapLookup es k = none →
        (cm.GobDecode (GobStream.msg es)).2.Get k = cm.Get k) := by
  refine ⟨rfl, ?_, ?_⟩
  · intro k v hkv
    have hl := mapLookup_insertEntries_present es k v hn hkv cm.m
    show (CacheMap.mk (insertEntries cm.m es)).Get k = (v, true)
    simp [CacheMap.Get, CacheMap.GetWithoutLock, hl]
  · intro k hk
    have hl := mapLookup_insertEntries_absent es k hk cm.m
    show (CacheMap.mk (insertEntries cm.m es)).Get k = cm.Get k
    simp [CacheMap.Get, CacheMap.GetWithoutLock, hl]

/-- Witness for the amended C2 at a concrete input: decoding {"b": 2} into
a container holding ("a", 1) succeeds, binds "b", and keeps "a". -/
theorem gobDecode_success_merges_witness :
    ((CacheMap.mk [(("a" : String), (1 : Int))]).GobDecode
        (GobStream.msg [("b", 2)])).1 = none ∧
      ((CacheMap.mk [(("a" : String), (1 : Int))]).GobDecode
          (GobStream.msg [("b", 2)])).2.Get "b" = (2, true) ∧
      ((CacheMap.mk [(("a" : String), (1 : Int))]).GobDecode
          (GobStream.msg [("b", 2)])).2.Get "a"
        = (CacheMap.mk [(("a" : String), (1 : Int))]).Get "a" := by
  have h := gobDecode_success_merges (CacheMap.mk [(("a" : String), (1 : Int))])
    [("b", 2)] (by decide)
  exact ⟨h.1, h.2.1 "b" 2 (by decide), h.2.2 "a" (by decide)⟩

/-- Claim C1 as stated is false on the code: when the gob stream fails
mid-decode, the entries parsed before the failure point have already been
inserted into `cm.m`.  Concretely: a container holding ("a", 1) decodes a
corrupt stream whose one parsed entry is ("b", 2); an error is returned,
the prior binding of "a" happens to survive, but a new entry ("b", 2) has
appeared even though "b" missed before the call — so the contents are not
exactly what they were. -/
theorem gobDecode_failure_counterexample :
    ((CacheMap.mk [(("a" : String), (1 : Int))]).GobDecode
        (GobStream.corrupt "unexpected EOF" [("b", 2)])).1
        = some ("gob decode error: " ++ "unexpected EOF") ∧
      (CacheMap.mk [(("a" : String), (1 : Int))]).Get "b" = (default, false) ∧
      ((CacheMap.mk [(("a" : String), (1 : Int))]).GobDecode
          (GobStream.corrupt "unexpected EOF" [("b", 2)])).2.Get "b" = (2, true) := by
  refine ⟨rfl, by decide, ?_⟩
  decide

/-- Claim C1 amended: a failed `GobDecode` always returns an error wrapping
the underlying cause, and every prior entry whose key is not among the
partially decoded entries keeps its value; but the entries decoded before
the failure point have been merged in (possibly adding keys or
overwriting prior ones), and the contents are exactly unchanged when the
failure precedes the first decoded entry (malformed header, type mismatch,
truncation detected up front). -/
theorem gobDecode_failure_partial_merge [DecidableEq K] [Inhabited V]
    (cm : CacheMap K V) (c : String) (ds : List (K × V)) :
    ((cm.GobDecode (GobStream.corrupt c ds)).1
        = some ("gob decode error: " ++ c)) ∧
      (∀ k, mapLookup ds k = none →
        (cm.GobDecode (GobStream.corrupt c ds)).2.Get k = cm.Get k) ∧
      (ds = [] → (cm.GobDecode (GobStream.corrupt c ds)).2 = cm) := by
  refine ⟨rfl, ?_, ?_⟩
  · intro k hk
    have hl := mapLookup_insertEntries_absent ds k hk cm.m
    show (CacheMap.mk (insertEntries cm.m ds)).Get k = cm.Get k
    simp [CacheMap.Get, CacheMap.GetWithoutLock, hl]
  · intro h
    subst h
    rfl

/-- Witness for the amended C1 at concrete inputs: a mid-stream failure
after parsing ("b", 2) keeps the prior binding of "a", and a failure
before any entry leaves the container holding ("a", 1) exactly as it
was. -/
theorem gobDecode_failure_partial_merge_witness :
    ((CacheMap.mk [(("a" : String), (1 : Int))]).GobDecode
        (GobStream.corrupt "unexpected EOF" [("b", 2)])).1
        = some ("gob decode error: " ++ "unexpected EOF") ∧
      ((CacheMap.mk [(("a" : String), (1 : Int))]).GobDecode
          (GobStream.corrupt "unexpected EOF" [("b", 2)])).2.Get "a"
        = (CacheMap.mk [(("a" : String), (1 : Int))]).Get "a" ∧
      ((CacheMap.mk [(("a" : String), (1 : Int))]).GobDecode
          (GobStream.corrupt "bad header" [])).2
        = CacheMap.mk [(("a" : String), (1 : Int))] := by
  have h1 := gobDecode_failure_partial_merge
    (CacheMap.mk [(("a" : String), (1 : Int))]) "unexpected EOF" [("b", 2)]
  have h2 := gobDecode_failure_partial_merge
    (CacheMap.mk [(("a" : String), (1 : Int))]) "bad header"
    ([] : List (String × Int))
  exact ⟨h1.1, h1.2.1 "a" (by decide), h2.2.2 rfl⟩

end Cachemap
